import Mathlib

namespace UrduRoman

/-! Shallow embedding of the chunking / streaming / resume pipeline of the
Urdu-to-Roman transliteration app: `src/App.tsx` (the current revision, the
second document in the file, labelled "V2.2 X-STREAM") together with
`src/services/geminiService.ts` and the types of `src/unnamed/part_000`.
Pure data is modelled directly; the ambient mutable pause/abort flags
(`isPausedRef`, `abortControllerRef.current.signal.aborted`) are modelled as
Boolean functions of a logical tick that advances at every program point
where the source reads them. -/

/-- One part of a dispatch request (`StreamInput` in geminiService.ts):
either a text chunk or an inline base64 image with its media type. -/
inductive StreamInput where
  | text (s : String)
  | image (data : String) (mimeType : String)
deriving DecidableEq

/-- Run status (`ConversionStats.status` in src/unnamed/part_000). -/
inductive Status where
  | idle
  | processing
  | paused
  | completed
  | error
deriving DecidableEq

/-- External world of one `processFile` run: unit extraction (page text,
rendered page image, text-file slice), the remote stream, and the two
interruption flags read by the loop.  `fragsOf k inputs` is the fragment
sequence the service produces for the k-th dispatch of the session together
with an optional error raised when the consumer asks for a fragment past the
end of the list. -/
structure Env where
  pageText : Nat → Except String String
  pageImage : Nat → Except String String
  chunkAt : Nat → String
  imageBase64 : String
  numPages : Nat
  fragsOf : Nat → List StreamInput → List String × Option String
  pausedAt : Nat → Bool
  abortedAt : Nat → Bool

/-- The combined interrupt read
`abortControllerRef.current.signal.aborted || isPausedRef.current`
(App.tsx 855, 877, 906, 932, 954; the commit guards read the same pair
negated and conjoined, which is the negation of this disjunction). -/
def intr (env : Env) (t : Nat) : Bool :=
  env.abortedAt t || env.pausedAt t

/-- During one run the pause flag and the abort signal are set at most once
and never cleared (`isPausedRef` is only reset at the start of the next run;
an `AbortController` signal is sticky), so the combined interrupt is
monotone in time. -/
def FlagsMono (env : Env) : Prop :=
  ∀ s t : Nat, s ≤ t → intr env s = true → intr env t = true

/-- Result of draining one dispatch stream: `ok acc t full` means the
consumption loop ended at tick `t` with accumulated text `acc`, where
`full = true` iff the stream was drained to its clean close (no break);
`err` means the service raised an error while the consumer was waiting for
the next fragment. -/
inductive ConsumeRes where
  | ok (acc : String) (t : Nat) (full : Bool)
  | err (msg : String) (acc : String) (t : Nat)
deriving DecidableEq

/-- The fragment consumption loop
`for await (chunk of stream) { if (aborted || paused) break; ... acc += chunk }`
(App.tsx 905-909, 953-957, 854-858).  Each received fragment is followed by a
flag check; on a break the just-received fragment is discarded.  An error the
stream raises after its last listed fragment surfaces only if the consumer
reaches that point without breaking. -/
def consume (env : Env) (errOpt : Option String) : List String → Nat → String → ConsumeRes
  | [], t, acc =>
      match errOpt with
      | some e => .err e acc t
      | none => .ok acc t true
  | f :: rest, t, acc =>
      if intr env t then .ok acc (t + 1) false
      else consume env errOpt rest (t + 1) (acc ++ f)

/-- Blankness after trimming: `text.trim()` is falsy exactly when every
character of the text is whitespace.  (Stated over the character list so
that the model evaluates inside the kernel; `String.trim` itself does
not.) -/
def isBlank (t : String) : Bool :=
  t.data.all Char.isWhitespace

/-- The per-batch extraction loop of the PDF branch (App.tsx 884-899): for
each page of the batch, OCR mode pushes the rendered page image, text mode
pushes the page text unless it is blank after trimming.  Extraction failures
propagate as errors. -/
def collectPdf (env : Env) (useOCR : Bool) : Nat → Nat → Except String (List StreamInput)
  | _, 0 => .ok []
  | firstPage, n + 1 =>
      if useOCR then do
        let b ← env.pageImage firstPage
        let rest ← collectPdf env useOCR (firstPage + 1) n
        return StreamInput.image b "image/jpeg" :: rest
      else do
        let t ← env.pageText firstPage
        let rest ← collectPdf env useOCR (firstPage + 1) n
        return if isBlank t then rest else StreamInput.text t :: rest

/-- The per-batch slicing loop of the text branch (App.tsx 938-947): up to
`batchSize` slices of `chunkSize` bytes starting at `off`, stopping at the
end of the file; blank slices are skipped.  Returns the collected inputs and
the final `currentBatchOffset`. -/
def collectTxt (env : Env) (totalSize chunkSize : Nat) : Nat → Nat → List StreamInput × Nat
  | off, 0 => ([], off)
  | off, n + 1 =>
      if totalSize ≤ off then ([], off)
      else
        let t := env.chunkAt off
        let res := collectTxt env totalSize chunkSize (off + chunkSize) n
        ((if isBlank t then res.1 else StreamInput.text t :: res.1), res.2)

/-- The mutable run state shared by all branches: the accumulated output
`finalChunksRef.current`, the cursor `processedItems`, the two stats fields
written by `updateProgress`, a ghost log of all dispatched batches (in
order), and the logical tick. -/
structure Core where
  finalChunks : List String
  processedItems : Nat
  chunksProcessed : Nat
  processedBytes : Nat
  dispatches : List (List StreamInput)
  tick : Nat
deriving DecidableEq

/-- Configuration of a PDF-branch run: resolved page range (App.tsx 869-870),
batch size, OCR flag and the file byte size used by `updateProgress`. -/
structure PdfCfg where
  startPage : Nat
  endPage : Nat
  batchSize : Nat
  useOCR : Bool
  totalBytes : Nat
deriving DecidableEq

/-- State of the PDF loop: the shared core plus the loop variable
`currentPage`. -/
structure PdfSt where
  core : Core
  currentPage : Nat
deriving DecidableEq

/-- Ghost observations of one loop iteration: whether a batch was dispatched,
whether its stream was drained to a clean close, whether the pause/abort pair
was clear at the commit check, and whether the batch result was committed. -/
structure BatchInfo where
  dispatched : Bool
  full : Bool
  clearAtCommit : Bool
  committed : Bool
deriving DecidableEq

/-- How a run's loop ended: normally (cursor reached the end), by observing
pause/abort at the top of the loop, by an extraction or dispatch error
(carrying the unit range of the failing batch), or by fuel exhaustion of the
model (the source loop has no fuel; enough fuel makes this unreachable). -/
inductive Outcome where
  | completedRun
  | stopped
  | failed (msg : String) (range : Nat × Nat)
  | fuelOut
deriving DecidableEq

/-- Result of one PDF-loop iteration: `halt` ends the loop, `next`
continues with the updated state. -/
inductive PdfIterOut where
  | halt (out : Outcome) (s : PdfSt)
  | next (s : PdfSt) (info : BatchInfo)
deriving DecidableEq

/-- One iteration of the PDF while loop (App.tsx 876-922): check the loop
condition and the interrupt flags, extract the batch, dispatch it if it has
any non-blank unit (otherwise advance the cursor past the blank batch), drain
the stream, and commit the batch result exactly when the pause/abort pair is
clear at the commit check (line 911). -/
def pdfIter (env : Env) (cfg : PdfCfg) (s : PdfSt) : PdfIterOut :=
  if cfg.endPage < s.currentPage then .halt .completedRun s
  else if intr env s.core.tick then
    .halt .stopped { s with core.tick := s.core.tick + 1 }
  else
    let t0 := s.core.tick + 1
    let bs := min cfg.batchSize (cfg.endPage - s.currentPage + 1)
    match collectPdf env cfg.useOCR s.currentPage bs with
    | .error e =>
        .halt (.failed e (s.currentPage, s.currentPage + bs - 1)) { s with core.tick := t0 }
    | .ok inputs =>
        if inputs.isEmpty then
          .next { s with currentPage := s.currentPage + bs,
                         core.processedItems := s.currentPage + bs - 1,
                         core.tick := t0 }
                ⟨false, true, true, false⟩
        else
          let fr := env.fragsOf s.core.dispatches.length inputs
          let disp := s.core.dispatches ++ [inputs]
          match consume env fr.2 fr.1 t0 "" with
          | .err e _ t =>
              .halt (.failed e (s.currentPage, s.currentPage + bs - 1))
                    { s with core.dispatches := disp, core.tick := t }
          | .ok acc t full =>
              if intr env t then
                .next { s with core.dispatches := disp, core.tick := t + 1 }
                      ⟨true, full, false, false⟩
              else
                let np := min (s.currentPage + bs - 1) cfg.endPage
                .next { s with currentPage := s.currentPage + bs,
                               core := { s.core with
                                 finalChunks := s.core.finalChunks ++ [acc ++ "\n\n"],
                                 processedItems := np,
                                 chunksProcessed := s.core.chunksProcessed + 1,
                                 processedBytes := np * cfg.totalBytes / cfg.endPage,
                                 dispatches := disp,
                                 tick := t + 1 } }
                      ⟨true, full, true, true⟩

/-- The PDF while loop, iterating `pdfIter` with fuel. -/
def pdfLoop (env : Env) (cfg : PdfCfg) : Nat → PdfSt → Outcome × PdfSt
  | 0, s => (.fuelOut, s)
  | fuel + 1, s =>
      match pdfIter env cfg s with
      | .halt out s1 => (out, s1)
      | .next s1 _ => pdfLoop env cfg fuel s1

/-- Configuration of a text-branch run (App.tsx 925-929): file byte size,
batch size, the fixed chunk size (32 KB) and the byte size used by
`updateProgress` (for a text file both sizes are `file.size`). -/
structure TxtCfg where
  totalSize : Nat
  batchSize : Nat
  chunkSize : Nat
  totalBytes : Nat
deriving DecidableEq

/-- Result of one text-loop iteration. -/
inductive TxtIterOut where
  | halt (out : Outcome) (s : Core)
  | next (s : Core) (info : BatchInfo)
deriving DecidableEq

/-- One iteration of the text while loop (App.tsx 931-969).  The source
keeps a local `offset` variable, but every update writes the same value to
`offset` and to `processedItems` (lines 962-963, 966-967) and the run starts
with `offset = processedItems` (line 925), so the model uses
`processedItems` as the offset. -/
def txtIter (env : Env) (cfg : TxtCfg) (s : Core) : TxtIterOut :=
  if cfg.totalSize ≤ s.processedItems then .halt .completedRun s
  else if intr env s.tick then .halt .stopped { s with tick := s.tick + 1 }
  else
    let t0 := s.tick + 1
    let col := collectTxt env cfg.totalSize cfg.chunkSize s.processedItems cfg.batchSize
    if col.1.isEmpty then
      .next { s with processedItems := col.2, tick := t0 } ⟨false, true, true, false⟩
    else
      let fr := env.fragsOf s.dispatches.length col.1
      let disp := s.dispatches ++ [col.1]
      match consume env fr.2 fr.1 t0 "" with
      | .err e _ t =>
          .halt (.failed e (s.processedItems, col.2)) { s with dispatches := disp, tick := t }
      | .ok acc t full =>
          if intr env t then
            .next { s with dispatches := disp, tick := t + 1 } ⟨true, full, false, false⟩
          else
            .next { s with
                    finalChunks := s.finalChunks ++ [acc ++ "\n"],
                    processedItems := col.2,
                    chunksProcessed := s.chunksProcessed + 1,
                    processedBytes := min col.2 cfg.totalSize * cfg.totalBytes / cfg.totalSize,
                    dispatches := disp,
                    tick := t + 1 }
                  ⟨true, full, true, true⟩

/-- The text while loop, iterating `txtIter` with fuel. -/
def txtLoop (env : Env) (cfg : TxtCfg) : Nat → Core → Outcome × Core
  | 0, s => (.fuelOut, s)
  | fuel + 1, s =>
      match txtIter env cfg s with
      | .halt out s1 => (out, s1)
      | .next s1 _ => txtLoop env cfg fuel s1

/-- The single-image branch (App.tsx 844-863): one dispatch of the whole
image; on a clean, uninterrupted completion the accumulated output is
replaced by `[fullText]`, the cursor set to 1 and progress updated with
fraction 1 (so `processedBytes` becomes the whole byte size). -/
def imageRun (env : Env) (mime : String) (totalBytes : Nat) (s : Core) :
    Outcome × Core × BatchInfo :=
  let inputs := [StreamInput.image env.imageBase64 mime]
  let fr := env.fragsOf s.dispatches.length inputs
  let disp := s.dispatches ++ [inputs]
  match consume env fr.2 fr.1 s.tick "" with
  | .err e _ t =>
      (.failed e (1, 1), { s with dispatches := disp, tick := t }, ⟨true, false, false, false⟩)
  | .ok acc t full =>
      if intr env t then
        (.stopped, { s with dispatches := disp, tick := t + 1 }, ⟨true, full, false, false⟩)
      else
        (.completedRun,
         { s with finalChunks := [acc],
                  processedItems := 1,
                  chunksProcessed := s.chunksProcessed + 1,
                  processedBytes := totalBytes,
                  dispatches := disp,
                  tick := t + 1 },
         ⟨true, full, true, true⟩)

/-- Kind of the loaded file, as detected at App.tsx 841-842. -/
inductive FileKind where
  | txt
  | pdf
  | image (mimeType : String)
deriving DecidableEq

/-- Identity of the loaded file. -/
structure FileInfo where
  name : String
  size : Nat
  kind : FileKind
deriving DecidableEq

/-- The component state visible to `processFile`: the loaded file, the
service handle and run guard, the run status and error message, mode flags,
the total unit count, and the shared core. -/
structure AppState where
  file : Option FileInfo
  geminiReady : Bool
  isRunning : Bool
  status : Status
  errMsg : Option String
  useOCR : Bool
  batchSize : Nat
  rangeStart : Option Nat
  rangeEnd : Option Nat
  totalItems : Nat
  core : Core
deriving DecidableEq

/-- End of a run (App.tsx 972-990): an exception sets status `error` with the
message; otherwise status becomes `completed` exactly when neither abort nor
pause is observed after the loop; `isRunningRef` is cleared in `finally`. -/
def finishRun (env : Env) (app : AppState) (out : Outcome) (c : Core) (totalItems : Nat) :
    AppState :=
  let app1 := { app with core := c, totalItems := totalItems }
  match out with
  | .failed e _ =>
      { app1 with status := .error, errMsg := some ("Stream Terminated: " ++ e),
                  isRunning := false }
  | _ =>
      if intr env c.tick then { app1 with isRunning := false }
      else { app1 with status := .completed, isRunning := false }

/-- `processFile` (App.tsx 826-991): the entry guard
`if (!state.file || !geminiRef.current || isRunningRef.current) return;`
followed by status `processing` and the branch on the file kind.  For PDF
files the page range is resolved as `start = max(1, rangeStart)`,
`end = min(numPages, rangeEnd)` and the loop starts at
`max(start, processedItems + 1)`. -/
def processFile (env : Env) (fuel : Nat) (app : AppState) : AppState :=
  match app.file with
  | none => app
  | some f =>
      if !app.geminiReady || app.isRunning then app
      else
        let app1 := { app with isRunning := true, status := .processing, errMsg := none }
        match f.kind with
        | .image mime =>
            let r := imageRun env mime f.size app1.core
            finishRun env app1 r.1 r.2.1 1
        | .pdf =>
            let totalPages := env.numPages
            let start := max 1 (app.rangeStart.getD 1)
            let endP := min totalPages (app.rangeEnd.getD totalPages)
            let cfg : PdfCfg := ⟨start, endP, app.batchSize, app.useOCR, f.size⟩
            let s0 : PdfSt := ⟨app1.core, max start (app1.core.processedItems + 1)⟩
            let r := pdfLoop env cfg fuel s0
            finishRun env app1 r.1 r.2.core endP
        | .txt =>
            let cfg : TxtCfg := ⟨f.size, app.batchSize, 32 * 1024, f.size⟩
            let r := txtLoop env cfg fuel app1.core
            finishRun env app1 r.1 r.2 f.size

/-- The stats record updated by `updateProgress`
(`ConversionStats` in src/unnamed/part_000, with real-valued time). -/
structure Stats where
  totalBytes : ℚ
  processedBytes : ℤ
  estimatedTimeRemaining : Option ℚ
  chunksProcessed : Nat
  preview : List (String × String)
deriving DecidableEq

/-- `updateProgress` (App.tsx 993-1007): derives the remaining-time estimate
`progress > 0 ? elapsed / progress - elapsed : 0`, floors the processed-byte
count, bumps the chunk counter, and appends to the preview ring keeping the
most recent `MAX_PREVIEW_CHUNKS = 100` entries. -/
def updateProgress (progress elapsed : ℚ) (original converted : String) (st : Stats) : Stats :=
  let remaining : ℚ := if 0 < progress then elapsed / progress - elapsed else 0
  let pv := st.preview ++ [(original, converted)]
  { st with processedBytes := Int.floor (progress * st.totalBytes),
            estimatedTimeRemaining := some remaining,
            chunksProcessed := st.chunksProcessed + 1,
            preview := pv.drop (pv.length - 100) }

/-- The fragment filter of `GeminiService.convertStream` (geminiService.ts
47-50): `const text = chunk.text; if (text) yield text;` — a response chunk
whose `text` is absent or the empty string yields nothing. -/
def convertStreamFrags (chunks : List (Option String)) : List String :=
  chunks.filterMap fun c =>
    match c with
    | none => none
    | some t => if t = "" then none else some t

/-- Request construction of `convertStream` (geminiService.ts 26-34): the
ordered input parts followed by the fixed trailing instruction part. -/
def buildParts (inputs : List StreamInput) : List StreamInput :=
  inputs ++ [StreamInput.text "Transcribe (if image) and convert all the above Urdu content into Roman English. Keep the order of segments preserved. Return only transliteration."]

/-- Pure batcher derived from the PDF loop (App.tsx 879-880, 913-915): with
0-based cursor `c` (`processedItems`, equal to `currentPage - 1`), the next
batch covers units `[c, c + min batchSize (totalUnits - c))`; the source
computes the same length as
`Math.min(batchSize, end - currentPage + 1)`. -/
def nextRange (cursor totalUnits batchSize : Nat) : Nat × Nat :=
  (cursor, cursor + min batchSize (totalUnits - cursor))

/-- Repeated application of `nextRange` from a cursor, with fuel. -/
def batchRanges (totalUnits batchSize : Nat) : Nat → Nat → List (Nat × Nat)
  | _, 0 => []
  | cursor, fuel + 1 =>
      if totalUnits ≤ cursor then []
      else
        let r := nextRange cursor totalUnits batchSize
        r :: batchRanges totalUnits batchSize r.2 fuel

/-- The half-open unit list `[r.1, r.2)` of a range. -/
def rangeUnits (r : Nat × Nat) : List Nat :=
  List.range' r.1 (r.2 - r.1)

/-- JSON values as handled by the host JSON codec, extended with the
JavaScript `undefined` that property access on a missing key yields (the
codec itself never produces `undefined`).  The textual encoding
(`JSON.stringify` / `JSON.parse`) is the host's and is treated as an
external, faithful codec of these values. -/
inductive Jv where
  | jnull
  | jabsent
  | jbool (b : Bool)
  | jnum (n : Nat)
  | jstr (s : String)
  | jarr (xs : List Jv)
  | jobj (fields : List (String × Jv))

/-- First-match key lookup in a JSON object, `undefined` when missing. -/
def lookupField : List (String × Jv) → String → Jv
  | [], _ => .jabsent
  | (k, v) :: rest, key => if k = key then v else lookupField rest key

/-- JavaScript property access on a parsed JSON value: a missing key on an
object, or any key on a primitive, yields `undefined`; access on `null` or
`undefined` throws a TypeError. -/
def getField : Jv → String → Except Unit Jv
  | .jobj fs, key => .ok (lookupField fs key)
  | .jnull, _ => .error ()
  | .jabsent, _ => .error ()
  | _, _ => .ok .jabsent

/-- JavaScript truthiness of a JSON value. -/
def truthy : Jv → Bool
  | .jnull => false
  | .jabsent => false
  | .jbool b => b
  | .jnum n => n != 0
  | .jstr s => s != ""
  | .jarr _ => true
  | .jobj _ => true

/-- JavaScript `toString` on the values the import handler can reach (it is
only ever called on truthy values). -/
def jvToString : Jv → String
  | .jnull => "null"
  | .jabsent => "undefined"
  | .jbool b => cond b "true" "false"
  | .jnum n => toString n
  | .jstr s => s
  | .jarr xs => String.intercalate "," (xs.attach.map fun x => jvToString x.1)
  | .jobj _ => "[object Object]"
decreasing_by
  have := List.sizeOf_lt_of_mem x.2
  simp only [Jv.jarr.sizeOf_spec]
  omega

/-- The slice of live component state read or written by the metadata import
handler (`handleMetadataUpload`).  Because the handler assigns parsed fields
with no shape validation, the values those assignments store can be
arbitrary JSON values or `undefined`, so the fields are modelled at the
JSON-value level; a well-formed live state holds the evident encodings
(`jarr` of `jstr` chunks, `jnum` cursor and total, `jbool` OCR flag). -/
structure ImportState where
  finalChunks : Jv
  processedItems : Jv
  totalItems : Jv
  useOCR : Jv
  rangeStart : String
  rangeEnd : String
  status : Status
  errMsg : Option String
  resumeData : Option Jv

/-- `handleMetadataUpload` (App.tsx 726-754): parse the uploaded blob
(`none` models input that is not syntactically valid JSON), then assign
`accumulatedContent`, `lastProcessedIndex`, `totalItems`, `useOCR` and the
optional range fields directly; the only failure caught is an exception
(JSON syntax error, or property access on `null`), which sets the
bad-metadata error and leaves every other field untouched. -/
def handleMetadataUpload (blob : Option Jv) (s : ImportState) : ImportState :=
  match blob with
  | none => { s with errMsg := some "Failed to parse metadata file." }
  | some j =>
      match getField j "accumulatedContent", getField j "lastProcessedIndex",
            getField j "totalItems", getField j "useOCR",
            getField j "rangeStart", getField j "rangeEnd" with
      | .ok ac, .ok lpi, .ok ti, .ok ocr, .ok rs, .ok re =>
          { s with finalChunks := ac,
                   processedItems := lpi,
                   totalItems := ti,
                   useOCR := ocr,
                   rangeStart := if truthy rs then jvToString rs else s.rangeStart,
                   rangeEnd := if truthy re then jvToString re else s.rangeEnd,
                   resumeData := some j,
                   status := .paused }
      | _, _, _, _, _, _ => { s with errMsg := some "Failed to parse metadata file." }

/-- A valid progress snapshot (`ResumeMetadata`, src/unnamed/part_000 lines
15-22, plus the optional page range of the current revision). -/
structure MetaS where
  fileName : String
  fileSize : Nat
  lastProcessedIndex : Nat
  accumulatedContent : List String
  useOCR : Bool
  totalItems : Nat
  rangeStart : Option Nat
  rangeEnd : Option Nat

/-- Snapshot export `downloadMetadata` (App.tsx 756-775): the serialized
JSON object.  `rangeStart`/`rangeEnd` are `undefined` when the range inputs
are empty, and `JSON.stringify` omits keys holding `undefined`, modelled by
leaving the keys out. -/
def downloadMetadata (m : MetaS) : Jv :=
  .jobj ([("fileName", .jstr m.fileName),
          ("fileSize", .jnum m.fileSize),
          ("lastProcessedIndex", .jnum m.lastProcessedIndex),
          ("accumulatedContent", .jarr (m.accumulatedContent.map .jstr)),
          ("useOCR", .jbool m.useOCR),
          ("totalItems", .jnum m.totalItems)]
        ++ (match m.rangeStart with
            | some n => [("rangeStart", Jv.jnum n)]
            | none => [])
        ++ (match m.rangeEnd with
            | some n => [("rangeEnd", Jv.jnum n)]
            | none => []))

/-- Text-mode page filter: a blank page contributes nothing to the batch,
any other page contributes its text (an extraction failure fails the batch
before this filter matters). -/
def keepText (r : Except String String) : Option StreamInput :=
  match r with
  | .ok t => if isBlank t then none else some (.text t)
  | .error _ => none

/-- The page numbers of a batch starting at `firstPage` with `n` pages. -/
def pageIdxs (firstPage n : Nat) : List Nat :=
  (List.range n).map (firstPage + ·)

/-- The chunk offsets the text batch loop visits starting at `off` with at
most `n` slices. -/
def chunkOffsets (totalSize chunkSize : Nat) : Nat → Nat → List Nat
  | _, 0 => []
  | off, n + 1 =>
      if totalSize ≤ off then []
      else off :: chunkOffsets totalSize chunkSize (off + chunkSize) n

/-- Chunk filter of the text batch loop: blank slices are skipped. -/
def keepChunk (env : Env) (o : Nat) : Option StreamInput :=
  if isBlank (env.chunkAt o) then none else some (.text (env.chunkAt o))

/-- Observable monotone evolution of the shared core: the accumulated output
grows only by appended suffixes, and the cursor and the chunk counter never
decrease. -/
def CoreStep (a b : Core) : Prop :=
  (∃ tail, b.finalChunks = a.finalChunks ++ tail) ∧
  a.processedItems ≤ b.processedItems ∧
  a.chunksProcessed ≤ b.chunksProcessed

/-- Loop invariant of the PDF branch: the cursor is strictly below the loop
variable and never beyond the resolved end page, the derived byte count is
bounded by the file size, the resolved start page is at least 1, and
`currentPage` is exactly what a (re-)entry would compute from the cursor
(App.tsx 874). -/
def PdfInv (cfg : PdfCfg) (s : PdfSt) : Prop :=
  s.core.processedItems < s.currentPage ∧
  s.core.processedItems ≤ cfg.endPage ∧
  s.core.processedBytes ≤ cfg.totalBytes ∧
  1 ≤ cfg.startPage ∧
  s.currentPage = max cfg.startPage (s.core.processedItems + 1)

/-- Loop invariant of the text branch: the byte cursor overshoots the file
size by less than one chunk, and the derived byte count is bounded by the
file size. -/
def TxtInv (cfg : TxtCfg) (s : Core) : Prop :=
  s.processedItems < cfg.totalSize + cfg.chunkSize ∧
  s.processedBytes ≤ cfg.totalBytes

/-- The unit range a re-entry of the PDF branch dispatches first, computed
from the committed cursor exactly as App.tsx 874 and 879-880 do. -/
def resumeRange (cfg : PdfCfg) (processed : Nat) : Nat × Nat :=
  (max cfg.startPage (processed + 1),
   max cfg.startPage (processed + 1) +
     min cfg.batchSize (cfg.endPage - max cfg.startPage (processed + 1) + 1) - 1)

/-- The byte range a re-entry of the text branch dispatches first: it starts
at the committed offset and ends at the batch offset the slicing loop
reaches from there. -/
def txtResumeRange (env : Env) (cfg : TxtCfg) (processed : Nat) : Nat × Nat :=
  (processed, (collectTxt env cfg.totalSize cfg.chunkSize processed cfg.batchSize).2)

/-! Concrete instances used to evaluate the model on explicit inputs. -/

/-- A quiet environment: extraction always succeeds, flags never fire. -/
def env0 : Env :=
  { pageText := fun _ => .ok "matn"
    pageImage := fun _ => .ok "b64"
    chunkAt := fun _ => "matn"
    imageBase64 := "imgb64"
    numPages := 3
    fragsOf := fun _ _ => (["Roman "], none)
    pausedAt := fun _ => false
    abortedAt := fun _ => false }

/-- An empty core state at the start of a fresh session. -/
def core0 : Core := ⟨[], 0, 0, 0, [], 0⟩

/-- A loaded 100-byte text file with a running conversion. -/
def app0 : AppState :=
  ⟨some ⟨"book.txt", 100, .txt⟩, true, true, .processing, none, false, 1, none, none, 0, core0⟩

/-- The same application state, not currently running. -/
def app1 : AppState := { app0 with isRunning := false, status := .idle }

/-- A stats record before any commit. -/
def stats0 : Stats := ⟨100, 0, none, 0, []⟩

/-- Environment whose second dispatch fails with a quota error and whose
later dispatches succeed with distinguishable fragments (dispatch counting
is global across runs in the model, so indices 2 and 3 are the retried
second batch and the third batch); page texts are distinguishable so the
dispatch log identifies the redispatched range. -/
def envErr2 : Env :=
  { env0 with
    pageText := fun i => .ok ("p" ++ toString i)
    fragsOf := fun k _ =>
      if k = 0 then (["B1"], none)
      else if k = 1 then ([], some "quota")
      else if k = 2 then (["B2"], none)
      else (["B3"], none) }

/-- Environment in which every extracted text is blank after trimming. -/
def envBlank : Env :=
  { env0 with
    pageText := fun _ => .ok "  "
    chunkAt := fun _ => " " }

/-- PDF configuration of a 3-page document, full range, batch size 1. -/
def cfg3 : PdfCfg := ⟨1, 3, 1, false, 300⟩

/-- PDF loop state at the start of a fresh 3-page run. -/
def pdfSt0 : PdfSt := ⟨core0, 1⟩

/-- Text configuration of a 100-byte file with the fixed 32 KB chunk. -/
def txtCfg100 : TxtCfg := ⟨100, 1, 32 * 1024, 100⟩

/-- A live import state holding the evident encodings of a session with one
committed chunk. -/
def importSt0 : ImportState :=
  ⟨.jarr [.jstr "Roman\n"], .jnum 7, .jnum 100, .jbool false, "", "", .idle, none, none⟩

/-- The state after the first committed batch of a quiet 3-page run. -/
def pdfNextSt : PdfSt :=
  ⟨⟨["Roman \n\n"], 1, 1, 100, [[.text "matn"]], 3⟩, 2⟩

/-- The final state of the run whose second dispatch fails. -/
def pdfErrSt : PdfSt := (pdfLoop envErr2 cfg3 10 pdfSt0).2

/-- The state a retry of the failed run would start from (App.tsx 874). -/
def pdfRetrySt : PdfSt :=
  ⟨pdfErrSt.core, max cfg3.startPage (pdfErrSt.core.processedItems + 1)⟩

end UrduRoman

namespace UrduRoman

/-! Supporting lemmas. -/

/-- Accounting for the fragment consumption loop: the tick never goes
backwards; a broken (non-full) drain saw the interrupt fire at its last
check; a full drain happened on a clean stream close and accumulated every
fragment in order. -/
theorem consume_ok_spec (env : Env) (errOpt : Option String) :
    ∀ (frags : List String) (t : Nat) (acc acc' : String) (t' : Nat) (full : Bool),
      consume env errOpt frags t acc = .ok acc' t' full →
      t ≤ t' ∧
      (full = false → intr env (t' - 1) = true ∧ t < t') ∧
      (full = true → errOpt = none ∧ acc' = List.foldl (· ++ ·) acc frags) := by
  intro frags
  induction frags with
  | nil =>
      intro t acc acc' t' full h
      cases herr : errOpt with
      | some e => simp [consume, herr] at h
      | none =>
          simp only [consume, herr] at h
          injection h with h1 h2 h3
          subst h1; subst h2
          refine ⟨le_refl _, ?_, ?_⟩
          · intro hf; rw [← h3] at hf; cases hf
          · intro _; exact ⟨rfl, rfl⟩
  | cons f rest ih =>
      intro t acc acc' t' full h
      by_cases hi : intr env t = true
      · simp only [consume] at h
        rw [if_pos hi] at h
        injection h with h1 h2 h3
        subst h1; subst h2
        refine ⟨Nat.le_succ _, ?_, ?_⟩
        · intro _
          refine ⟨?_, Nat.lt_succ_self _⟩
          show intr env (t + 1 - 1) = true
          simpa using hi
        · intro hf; rw [← h3] at hf; cases hf
      · simp only [consume] at h
        rw [if_neg hi] at h
        have h' := ih (t + 1) (acc ++ f) acc' t' full h
        refine ⟨Nat.le_of_succ_le h'.1, ?_, ?_⟩
        · intro hf
          exact ⟨(h'.2.1 hf).1, Nat.lt_of_succ_lt (h'.2.1 hf).2⟩
        · intro hf
          exact ⟨(h'.2.2 hf).1, (h'.2.2 hf).2⟩

/-- Under monotone flags, a drain whose final commit check sees the flags
clear must have been a full drain (no break happened). -/
theorem consume_full_of_clear (env : Env) (hm : FlagsMono env) (errOpt : Option String)
    (frags : List String) (t : Nat) (acc acc' : String) (t' : Nat) (full : Bool)
    (h : consume env errOpt frags t acc = .ok acc' t' full)
    (hclear : intr env t' = false) : full = true := by
  cases hfull : full with
  | true => rfl
  | false =>
      have hs := (consume_ok_spec env errOpt frags t acc acc' t' full h).2.1 hfull
      have : intr env t' = true := hm (t' - 1) t' (Nat.sub_le _ _) hs.1
      rw [this] at hclear
      cases hclear

/-- Partition property of the derived batcher: starting from any cursor,
with enough fuel, the generated ranges cover `[cursor, totalUnits)` exactly
once in increasing order, and every range is non-empty with length at most
`batchSize`. -/
theorem batchRanges_spec (T B : Nat) (hB : 1 ≤ B) :
    ∀ (fuel cursor : Nat), T ≤ cursor + fuel →
      ((batchRanges T B cursor fuel).map rangeUnits).flatten = List.range' cursor (T - cursor) ∧
      (∀ r ∈ batchRanges T B cursor fuel, r.1 < r.2 ∧ r.2 - r.1 ≤ B) := by
  intro fuel
  induction fuel with
  | zero =>
      intro cursor h
      have : T - cursor = 0 := by omega
      simp [batchRanges, this]
  | succ fuel ih =>
      intro cursor h
      by_cases hc : T ≤ cursor
      · have : T - cursor = 0 := by omega
        simp [batchRanges, hc, this]
      · have hlt : cursor < T := Nat.lt_of_not_le hc
        have hk1 : 1 ≤ min B (T - cursor) := le_min hB (by omega)
        have hkT : min B (T - cursor) ≤ T - cursor := Nat.min_le_right _ _
        have hrec := ih (cursor + min B (T - cursor)) (by omega)
        unfold batchRanges
        rw [if_neg hc]
        constructor
        · simp only [nextRange, List.map_cons, List.flatten_cons]
          rw [hrec.1]
          have h1 : rangeUnits (cursor, cursor + min B (T - cursor)) =
              List.range' cursor (min B (T - cursor)) := by
            simp [rangeUnits]
          rw [h1, List.range'_append_1]
          congr 1
          omega
        · intro r hr
          simp only [nextRange, List.mem_cons] at hr
          cases hr with
          | inl h0 =>
              subst h0
              refine ⟨?_, ?_⟩
              · show cursor < cursor + min B (T - cursor)
                omega
              · show cursor + min B (T - cursor) - cursor ≤ B
                omega
          | inr h0 => exact hrec.2 r h0

/-- Exhaustive description of a continuing PDF-loop iteration: the loop
condition and both flag checks passed, and the iteration either skipped an
all-blank batch, or dispatched a batch whose drain was followed by a commit
check that either failed (nothing committed) or passed (result appended and
cursor advanced). -/
theorem pdfIter_next_shape (env : Env) (cfg : PdfCfg) (s s1 : PdfSt) (info : BatchInfo)
    (h : pdfIter env cfg s = .next s1 info) :
    s.currentPage ≤ cfg.endPage ∧
    intr env s.core.tick = false ∧
    ((collectPdf env cfg.useOCR s.currentPage
        (min cfg.batchSize (cfg.endPage - s.currentPage + 1)) = .ok [] ∧
      info = ⟨false, true, true, false⟩ ∧
      s1 = { s with currentPage := s.currentPage +
                      min cfg.batchSize (cfg.endPage - s.currentPage + 1),
                    core.processedItems := s.currentPage +
                      min cfg.batchSize (cfg.endPage - s.currentPage + 1) - 1,
                    core.tick := s.core.tick + 1 }) ∨
     (∃ inputs acc t full,
        collectPdf env cfg.useOCR s.currentPage
          (min cfg.batchSize (cfg.endPage - s.currentPage + 1)) = .ok inputs ∧
        inputs.isEmpty = false ∧
        consume env (env.fragsOf s.core.dispatches.length inputs).2
          (env.fragsOf s.core.dispatches.length inputs).1 (s.core.tick + 1) "" =
            .ok acc t full ∧
        ((intr env t = true ∧ info = ⟨true, full, false, false⟩ ∧
          s1 = { s with core.dispatches := s.core.dispatches ++ [inputs],
                        core.tick := t + 1 }) ∨
         (intr env t = false ∧ info = ⟨true, full, true, true⟩ ∧
          s1 = { s with
                 currentPage := s.currentPage +
                   min cfg.batchSize (cfg.endPage - s.currentPage + 1),
                 core := { s.core with
                   finalChunks := s.core.finalChunks ++ [acc ++ "\n\n"],
                   processedItems := min (s.currentPage +
                     min cfg.batchSize (cfg.endPage - s.currentPage + 1) - 1) cfg.endPage,
                   chunksProcessed := s.core.chunksProcessed + 1,
                   processedBytes := min (s.currentPage +
                     min cfg.batchSize (cfg.endPage - s.currentPage + 1) - 1) cfg.endPage *
                     cfg.totalBytes / cfg.endPage,
                   dispatches := s.core.dispatches ++ [inputs],
                   tick := t + 1 } })))) := by
  by_cases h1 : cfg.endPage < s.currentPage
  · simp only [pdfIter] at h
    rw [if_pos h1] at h
    injection h
  by_cases h2 : intr env s.core.tick = true
  · simp only [pdfIter] at h
    rw [if_neg h1, if_pos h2] at h
    injection h
  have hle : s.currentPage ≤ cfg.endPage := Nat.le_of_not_lt h1
  have hclear : intr env s.core.tick = false := by
    cases hx : intr env s.core.tick with
    | false => rfl
    | true => exact absurd hx h2
  refine ⟨hle, hclear, ?_⟩
  simp only [pdfIter] at h
  rw [if_neg h1, if_neg h2] at h
  cases hcol : collectPdf env cfg.useOCR s.currentPage
      (min cfg.batchSize (cfg.endPage - s.currentPage + 1)) with
  | error e =>
      rw [hcol] at h
      dsimp only [] at h
      injection h
  | ok inputs =>
      rw [hcol] at h
      dsimp only [] at h
      by_cases hemp : inputs.isEmpty = true
      · rw [if_pos hemp] at h
        injection h with hs hinfo
        left
        have hnil : inputs = [] := by
          cases inputs with
          | nil => rfl
          | cons a l => simp [List.isEmpty] at hemp
        exact ⟨by rw [hnil], hinfo.symm, hs.symm⟩
      · rw [if_neg hemp] at h
        right
        cases hcons : consume env (env.fragsOf s.core.dispatches.length inputs).2
            (env.fragsOf s.core.dispatches.length inputs).1 (s.core.tick + 1) "" with
        | err e acc t =>
            rw [hcons] at h
            dsimp only [] at h
            injection h
        | ok acc t full =>
            rw [hcons] at h
            dsimp only [] at h
            have hemp' : inputs.isEmpty = false := by
              cases hx : inputs.isEmpty with
              | false => rfl
              | true => exact absurd hx hemp
            refine ⟨inputs, acc, t, full, rfl, hemp', hcons, ?_⟩
            by_cases hi : intr env t = true
            · rw [if_pos hi] at h
              injection h with hs hinfo
              exact Or.inl ⟨hi, hinfo.symm, hs.symm⟩
            · rw [if_neg hi] at h
              injection h with hs hinfo
              have hi' : intr env t = false := by
                cases hx : intr env t with
                | false => rfl
                | true => exact absurd hx hi
              exact Or.inr ⟨hi', hinfo.symm, hs.symm⟩

/-- A halting PDF-loop iteration leaves the accumulated output, the cursor,
the stats counters and the loop variable untouched, never reports fuel
exhaustion, and an extraction or dispatch failure reports exactly the range
of the batch that was being processed. -/
theorem pdfIter_halt_shape (env : Env) (cfg : PdfCfg) (s s1 : PdfSt) (out : Outcome)
    (h : pdfIter env cfg s = .halt out s1) :
    s1.core.finalChunks = s.core.finalChunks ∧
    s1.core.processedItems = s.core.processedItems ∧
    s1.core.chunksProcessed = s.core.chunksProcessed ∧
    s1.core.processedBytes = s.core.processedBytes ∧
    s1.currentPage = s.currentPage ∧
    out ≠ .fuelOut ∧
    (∀ e r, out = .failed e r →
      r = (s.currentPage,
           s.currentPage + min cfg.batchSize (cfg.endPage - s.currentPage + 1) - 1) ∧
      s.currentPage ≤ cfg.endPage) := by
  by_cases h1 : cfg.endPage < s.currentPage
  · simp only [pdfIter] at h
    rw [if_pos h1] at h
    injection h with hout hs
    subst hs
    refine ⟨rfl, rfl, rfl, rfl, rfl, ?_, ?_⟩
    · rw [← hout]; intro hx; cases hx
    · intro e r hx; rw [← hout] at hx; cases hx
  by_cases h2 : intr env s.core.tick = true
  · simp only [pdfIter] at h
    rw [if_neg h1, if_pos h2] at h
    injection h with hout hs
    subst hs
    refine ⟨rfl, rfl, rfl, rfl, rfl, ?_, ?_⟩
    · rw [← hout]; intro hx; cases hx
    · intro e r hx; rw [← hout] at hx; cases hx
  have hle : s.currentPage ≤ cfg.endPage := Nat.le_of_not_lt h1
  simp only [pdfIter] at h
  rw [if_neg h1, if_neg h2] at h
  cases hcol : collectPdf env cfg.useOCR s.currentPage
      (min cfg.batchSize (cfg.endPage - s.currentPage + 1)) with
  | error e0 =>
      rw [hcol] at h
      dsimp only [] at h
      injection h with hout hs
      subst hs
      refine ⟨rfl, rfl, rfl, rfl, rfl, ?_, ?_⟩
      · rw [← hout]; intro hx; cases hx
      · intro e r hx
        rw [← hout] at hx
        injection hx with he hr
        exact ⟨hr.symm, hle⟩
  | ok inputs =>
      rw [hcol] at h
      dsimp only [] at h
      by_cases hemp : inputs.isEmpty = true
      · rw [if_pos hemp] at h
        injection h
      · rw [if_neg hemp] at h
        cases hcons : consume env (env.fragsOf s.core.dispatches.length inputs).2
            (env.fragsOf s.core.dispatches.length inputs).1 (s.core.tick + 1) "" with
        | err e0 acc t =>
            rw [hcons] at h
            dsimp only [] at h
            injection h with hout hs
            subst hs
            refine ⟨rfl, rfl, rfl, rfl, rfl, ?_, ?_⟩
            · rw [← hout]; intro hx; cases hx
            · intro e r hx
              rw [← hout] at hx
              injection hx with he hr
              exact ⟨hr.symm, hle⟩
        | ok acc t full =>
            rw [hcons] at h
            dsimp only [] at h
            by_cases hi : intr env t = true
            · rw [if_pos hi] at h
              injection h
            · rw [if_neg hi] at h
              injection h

/-- Exhaustive description of a continuing text-loop iteration, the analogue
of the PDF shape lemma for the text branch. -/
theorem txtIter_next_shape (env : Env) (cfg : TxtCfg) (s s1 : Core) (info : BatchInfo)
    (h : txtIter env cfg s = .next s1 info) :
    s.processedItems < cfg.totalSize ∧
    intr env s.tick = false ∧
    (((collectTxt env cfg.totalSize cfg.chunkSize s.processedItems cfg.batchSize).1.isEmpty =
        true ∧
      info = ⟨false, true, true, false⟩ ∧
      s1 = { s with
             processedItems :=
               (collectTxt env cfg.totalSize cfg.chunkSize s.processedItems cfg.batchSize).2,
             tick := s.tick + 1 }) ∨
     (∃ acc t full,
        (collectTxt env cfg.totalSize cfg.chunkSize s.processedItems cfg.batchSize).1.isEmpty =
          false ∧
        consume env
          (env.fragsOf s.dispatches.length
            (collectTxt env cfg.totalSize cfg.chunkSize s.processedItems cfg.batchSize).1).2
          (env.fragsOf s.dispatches.length
            (collectTxt env cfg.totalSize cfg.chunkSize s.processedItems cfg.batchSize).1).1
          (s.tick + 1) "" = .ok acc t full ∧
        ((intr env t = true ∧ info = ⟨true, full, false, false⟩ ∧
          s1 = { s with
                 dispatches := s.dispatches ++
                   [(collectTxt env cfg.totalSize cfg.chunkSize s.processedItems
                      cfg.batchSize).1],
                 tick := t + 1 }) ∨
         (intr env t = false ∧ info = ⟨true, full, true, true⟩ ∧
          s1 = { s with
                 finalChunks := s.finalChunks ++ [acc ++ "\n"],
                 processedItems :=
                   (collectTxt env cfg.totalSize cfg.chunkSize s.processedItems
                     cfg.batchSize).2,
                 chunksProcessed := s.chunksProcessed + 1,
                 processedBytes :=
                   min (collectTxt env cfg.totalSize cfg.chunkSize s.processedItems
                     cfg.batchSize).2 cfg.totalSize * cfg.totalBytes / cfg.totalSize,
                 dispatches := s.dispatches ++
                   [(collectTxt env cfg.totalSize cfg.chunkSize s.processedItems
                      cfg.batchSize).1],
                 tick := t + 1 })))) := by
  by_cases h1 : cfg.totalSize ≤ s.processedItems
  · simp only [txtIter] at h
    rw [if_pos h1] at h
    injection h
  by_cases h2 : intr env s.tick = true
  · simp only [txtIter] at h
    rw [if_neg h1, if_pos h2] at h
    injection h
  have hlt : s.processedItems < cfg.totalSize := Nat.lt_of_not_le h1
  have hclear : intr env s.tick = false := by
    cases hx : intr env s.tick with
    | false => rfl
    | true => exact absurd hx h2
  refine ⟨hlt, hclear, ?_⟩
  simp only [txtIter] at h
  rw [if_neg h1, if_neg h2] at h
  by_cases hemp :
      (collectTxt env cfg.totalSize cfg.chunkSize s.processedItems cfg.batchSize).1.isEmpty =
        true
  · rw [if_pos hemp] at h
    injection h with hs hinfo
    exact Or.inl ⟨hemp, hinfo.symm, hs.symm⟩
  · rw [if_neg hemp] at h
    right
    cases hcons : consume env
        (env.fragsOf s.dispatches.length
          (collectTxt env cfg.totalSize cfg.chunkSize s.processedItems cfg.batchSize).1).2
        (env.fragsOf s.dispatches.length
          (collectTxt env cfg.totalSize cfg.chunkSize s.processedItems cfg.batchSize).1).1
        (s.tick + 1) "" with
    | err e acc t =>
        rw [hcons] at h
        dsimp only [] at h
        injection h
    | ok acc t full =>
        rw [hcons] at h
        dsimp only [] at h
        have hemp' :
            (collectTxt env cfg.totalSize cfg.chunkSize s.processedItems
              cfg.batchSize).1.isEmpty = false := by
          cases hx :
              (collectTxt env cfg.totalSize cfg.chunkSize s.processedItems
                cfg.batchSize).1.isEmpty with
          | false => rfl
          | true => exact absurd hx hemp
        refine ⟨acc, t, full, hemp', rfl, ?_⟩
        by_cases hi : intr env t = true
        · rw [if_pos hi] at h
          injection h with hs hinfo
          exact Or.inl ⟨hi, hinfo.symm, hs.symm⟩
        · rw [if_neg hi] at h
          injection h with hs hinfo
          have hi' : intr env t = false := by
            cases hx : intr env t with
            | false => rfl
            | true => exact absurd hx hi
          exact Or.inr ⟨hi', hinfo.symm, hs.symm⟩

/-- A halting text-loop iteration leaves the accumulated output, the cursor
and the stats counters untouched, never reports fuel exhaustion, and a
dispatch failure reports exactly the byte range of the failing batch. -/
theorem txtIter_halt_shape (env : Env) (cfg : TxtCfg) (s s1 : Core) (out : Outcome)
    (h : txtIter env cfg s = .halt out s1) :
    s1.finalChunks = s.finalChunks ∧
    s1.processedItems = s.processedItems ∧
    s1.chunksProcessed = s.chunksProcessed ∧
    s1.processedBytes = s.processedBytes ∧
    out ≠ .fuelOut ∧
    (∀ e r, out = .failed e r →
      r = (s.processedItems,
           (collectTxt env cfg.totalSize cfg.chunkSize s.processedItems cfg.batchSize).2)) := by
  by_cases h1 : cfg.totalSize ≤ s.processedItems
  · simp only [txtIter] at h
    rw [if_pos h1] at h
    injection h with hout hs
    subst hs
    refine ⟨rfl, rfl, rfl, rfl, ?_, ?_⟩
    · rw [← hout]; intro hx; cases hx
    · intro e r hx; rw [← hout] at hx; cases hx
  by_cases h2 : intr env s.tick = true
  · simp only [txtIter] at h
    rw [if_neg h1, if_pos h2] at h
    injection h with hout hs
    subst hs
    refine ⟨rfl, rfl, rfl, rfl, ?_, ?_⟩
    · rw [← hout]; intro hx; cases hx
    · intro e r hx; rw [← hout] at hx; cases hx
  simp only [txtIter] at h
  rw [if_neg h1, if_neg h2] at h
  by_cases hemp :
      (collectTxt env cfg.totalSize cfg.chunkSize s.processedItems cfg.batchSize).1.isEmpty =
        true
  · rw [if_pos hemp] at h
    injection h
  · rw [if_neg hemp] at h
    cases hcons : consume env
        (env.fragsOf s.dispatches.length
          (collectTxt env cfg.totalSize cfg.chunkSize s.processedItems cfg.batchSize).1).2
        (env.fragsOf s.dispatches.length
          (collectTxt env cfg.totalSize cfg.chunkSize s.processedItems cfg.batchSize).1).1
        (s.tick + 1) "" with
    | err e acc t =>
        rw [hcons] at h
        dsimp only [] at h
        injection h with hout hs
        subst hs
        refine ⟨rfl, rfl, rfl, rfl, ?_, ?_⟩
        · rw [← hout]; intro hx; cases hx
        · intro e r hx
          rw [← hout] at hx
          injection hx with he hr
          exact hr.symm
    | ok acc t full =>
        rw [hcons] at h
        dsimp only [] at h
        by_cases hi : intr env t = true
        · rw [if_pos hi] at h
          injection h
        · rw [if_neg hi] at h
          injection h

/-- Natural division by the total is exactly the floor of the rational
progress fraction times the total, so the byte counts stored by the loop
models agree with `Math.floor(progress * totalBytes)`. -/
theorem floorBytes_eq (np endP tb : Nat) :
    Int.floor ((np : ℚ) / (endP : ℚ) * (tb : ℚ)) = ((np * tb / endP : Nat) : ℤ) := by
  have hx : ((np : ℚ) / (endP : ℚ) * (tb : ℚ)) = ((np * tb : ℕ) : ℚ) / ((endP : ℕ) : ℚ) := by
    push_cast; ring
  have h0 : (0 : ℚ) ≤ ((np * tb : ℕ) : ℚ) / ((endP : ℕ) : ℚ) := by positivity
  rw [hx, ← Int.natCast_floor_eq_floor h0, Nat.floor_div_eq_div]

/-- The trivial core evolution. -/
theorem CoreStep_refl (a : Core) : CoreStep a a :=
  ⟨⟨[], by simp⟩, le_refl _, le_refl _⟩

/-- Core evolutions compose. -/
theorem CoreStep_trans {a b c : Core} (h1 : CoreStep a b) (h2 : CoreStep b c) : CoreStep a c := by
  obtain ⟨⟨t1, ht1⟩, p1, q1⟩ := h1
  obtain ⟨⟨t2, ht2⟩, p2, q2⟩ := h2
  exact ⟨⟨t1 ++ t2, by rw [ht2, ht1, List.append_assoc]⟩, le_trans p1 p2, le_trans q1 q2⟩

/-- Unfolding of one step of the batch page list. -/
theorem pageIdxs_succ (fp n : Nat) : pageIdxs fp (n + 1) = fp :: pageIdxs (fp + 1) n := by
  unfold pageIdxs
  rw [List.range_succ_eq_map]
  simp only [List.map_cons, List.map_map, Nat.add_zero]
  congr 1
  apply List.map_congr_left
  intro i _
  simp [Function.comp]
  omega

/-- The text-mode PDF batch collector keeps exactly the non-blank pages, in
page order: a page whose extracted text is blank after trimming never
appears among the dispatched inputs. -/
theorem collectPdf_ok (env : Env) :
    ∀ (n firstPage : Nat) (l : List StreamInput),
      collectPdf env false firstPage n = .ok l →
      l = (pageIdxs firstPage n).filterMap (fun i => keepText (env.pageText i)) := by
  intro n
  induction n with
  | zero =>
      intro fp l h
      simp only [collectPdf] at h
      injection h with h1
      simp [pageIdxs, ← h1]
  | succ n ih =>
      intro fp l h
      cases ht : env.pageText fp with
      | error e => simp [collectPdf, ht, Bind.bind, Except.bind] at h
      | ok t =>
          cases hrest : collectPdf env false (fp + 1) n with
          | error e =>
              simp [collectPdf, ht, hrest, Bind.bind, Except.bind, Functor.map,
                Except.map] at h
          | ok rest =>
              have hr := ih (fp + 1) rest hrest
              simp only [collectPdf, Bool.false_eq_true, if_false, ht, hrest,
                Bind.bind, Except.bind, Functor.map, Except.map] at h
              injection h with h1
              rw [pageIdxs_succ, List.filterMap_cons]
              simp only [keepText, ht]
              rw [← h1, hr]
              by_cases hb : isBlank t = true
              · simp only [hb, if_true, if_pos rfl]
                rfl
              · simp only [hb, if_false]
                rfl

/-- The text batch collector keeps exactly the non-blank slices at the
offsets it visits, and advances the batch offset by one chunk per visited
slice. -/
theorem collectTxt_spec (env : Env) (ts cs : Nat) :
    ∀ (n off : Nat),
      collectTxt env ts cs off n =
        ((chunkOffsets ts cs off n).filterMap (keepChunk env),
         off + cs * (chunkOffsets ts cs off n).length) := by
  intro n
  induction n with
  | zero => intro off; simp [collectTxt, chunkOffsets]
  | succ n ih =>
      intro off
      by_cases hoff : ts ≤ off
      · simp [collectTxt, chunkOffsets, hoff]
      · rw [collectTxt, chunkOffsets, if_neg hoff, if_neg hoff]
        rw [ih (off + cs)]
        rw [Prod.mk.injEq]
        constructor
        · simp only [List.filterMap_cons, keepChunk]
          by_cases hb : isBlank (env.chunkAt off) = true
          · simp only [if_pos hb]
          · simp only [if_neg hb]
        · simp only [List.length_cons]
          ring

/-- The batch offset never moves backwards. -/
theorem collectTxt_le (env : Env) (ts cs : Nat) :
    ∀ (n off : Nat), off ≤ (collectTxt env ts cs off n).2 := by
  intro n
  induction n with
  | zero => intro off; simp [collectTxt]
  | succ n ih =>
      intro off
      by_cases hoff : ts ≤ off
      · simp [collectTxt, hoff]
      · rw [collectTxt, if_neg hoff]
        exact le_trans (Nat.le_add_right off cs) (ih (off + cs))

/-- The batch offset overshoots the file size by less than one chunk. -/
theorem collectTxt_lt (env : Env) (ts cs : Nat) :
    ∀ (n off : Nat), off < ts + cs → (collectTxt env ts cs off n).2 < ts + cs := by
  intro n
  induction n with
  | zero => intro off h; simpa [collectTxt] using h
  | succ n ih =>
      intro off h
      by_cases hoff : ts ≤ off
      · simpa [collectTxt, hoff] using h
      · rw [collectTxt, if_neg hoff]
        exact ih (off + cs) (by omega)

/-- Exhaustive description of the single-image branch. -/
theorem imageRun_shape (env : Env) (mime : String) (tb : Nat) (s : Core)
    (out : Outcome) (c : Core) (info : BatchInfo)
    (h : imageRun env mime tb s = (out, c, info)) :
    ((∃ e acc t,
        consume env (env.fragsOf s.dispatches.length [StreamInput.image env.imageBase64 mime]).2
          (env.fragsOf s.dispatches.length [StreamInput.image env.imageBase64 mime]).1
          s.tick "" = .err e acc t ∧
        out = .failed e (1, 1) ∧ info = ⟨true, false, false, false⟩ ∧
        c = { s with dispatches := s.dispatches ++ [[StreamInput.image env.imageBase64 mime]],
                     tick := t }) ∨
     (∃ acc t full,
        consume env (env.fragsOf s.dispatches.length [StreamInput.image env.imageBase64 mime]).2
          (env.fragsOf s.dispatches.length [StreamInput.image env.imageBase64 mime]).1
          s.tick "" = .ok acc t full ∧
        ((intr env t = true ∧ out = .stopped ∧ info = ⟨true, full, false, false⟩ ∧
          c = { s with
                dispatches := s.dispatches ++ [[StreamInput.image env.imageBase64 mime]],
                tick := t + 1 }) ∨
         (intr env t = false ∧ out = .completedRun ∧ info = ⟨true, full, true, true⟩ ∧
          c = { s with
                finalChunks := [acc],
                processedItems := 1,
                chunksProcessed := s.chunksProcessed + 1,
                processedBytes := tb,
                dispatches := s.dispatches ++ [[StreamInput.image env.imageBase64 mime]],
                tick := t + 1 })))) := by
  simp only [imageRun] at h
  cases hcons : consume env
      (env.fragsOf s.dispatches.length [StreamInput.image env.imageBase64 mime]).2
      (env.fragsOf s.dispatches.length [StreamInput.image env.imageBase64 mime]).1
      s.tick "" with
  | err e acc t =>
      rw [hcons] at h
      dsimp only [] at h
      injection h with h1 h2
      injection h2 with h2 h3
      exact Or.inl ⟨e, acc, t, rfl, h1.symm, h3.symm, h2.symm⟩
  | ok acc t full =>
      rw [hcons] at h
      dsimp only [] at h
      by_cases hi : intr env t = true
      · rw [if_pos hi] at h
        injection h with h1 h2
        injection h2 with h2 h3
        exact Or.inr ⟨acc, t, full, rfl, Or.inl ⟨hi, h1.symm, h3.symm, h2.symm⟩⟩
      · rw [if_neg hi] at h
        injection h with h1 h2
        injection h2 with h2 h3
        have hi' : intr env t = false := by
          cases hx : intr env t with
          | false => rfl
          | true => exact absurd hx hi
        exact Or.inr ⟨acc, t, full, rfl, Or.inr ⟨hi', h1.symm, h3.symm, h2.symm⟩⟩

/-- A continuing PDF iteration preserves the loop invariant and evolves the
core monotonically. -/
theorem pdfIter_next_inv (env : Env) (cfg : PdfCfg) (s s1 : PdfSt) (info : BatchInfo)
    (h : pdfIter env cfg s = .next s1 info) (hinv : PdfInv cfg s) :
    PdfInv cfg s1 ∧ CoreStep s.core s1.core := by
  obtain ⟨hle, hclear, hcase⟩ := pdfIter_next_shape env cfg s s1 info h
  obtain ⟨hp1, hp2, hp3, hp4, hp5⟩ := hinv
  have hbs : min cfg.batchSize (cfg.endPage - s.currentPage + 1) ≤
      cfg.endPage - s.currentPage + 1 := Nat.min_le_right _ _
  have hstart : cfg.startPage ≤ s.currentPage := by
    rw [hp5]; exact le_max_left _ _
  have hcp1 : 1 ≤ s.currentPage := le_trans hp4 hstart
  rcases hcase with ⟨hcol, hinfo, hs1⟩ | ⟨inputs, acc, t, full, hcol, hne, hcons, hrest⟩
  · subst hs1
    constructor
    · refine ⟨?_, ?_, hp3, hp4, ?_⟩ <;> dsimp only [] <;> omega
    · refine ⟨⟨[], by simp⟩, ?_, le_refl _⟩
      dsimp only []
      omega
  · rcases hrest with ⟨hi, hinfo, hs1⟩ | ⟨hi, hinfo, hs1⟩
    · subst hs1
      exact ⟨⟨hp1, hp2, hp3, hp4, hp5⟩, ⟨⟨[], by simp⟩, le_refl _, le_refl _⟩⟩
    · subst hs1
      have hend1 : 1 ≤ cfg.endPage := le_trans hcp1 hle
      have hnp : min (s.currentPage +
          min cfg.batchSize (cfg.endPage - s.currentPage + 1) - 1) cfg.endPage ≤
          cfg.endPage := Nat.min_le_right _ _
      have hbytes : min (s.currentPage +
          min cfg.batchSize (cfg.endPage - s.currentPage + 1) - 1) cfg.endPage *
          cfg.totalBytes / cfg.endPage ≤ cfg.totalBytes := by
        calc min (s.currentPage +
            min cfg.batchSize (cfg.endPage - s.currentPage + 1) - 1) cfg.endPage *
            cfg.totalBytes / cfg.endPage ≤
            cfg.endPage * cfg.totalBytes / cfg.endPage :=
              Nat.div_le_div_right (Nat.mul_le_mul_right _ hnp)
          _ = cfg.totalBytes := Nat.mul_div_cancel_left _ (by omega)
      constructor
      · refine ⟨?_, ?_, hbytes, hp4, ?_⟩ <;> dsimp only [] <;> omega
      · refine ⟨⟨[acc ++ "\n\n"], rfl⟩, ?_, ?_⟩ <;> dsimp only [] <;> omega

/-- A continuing text iteration preserves the loop invariant and evolves
the core monotonically. -/
theorem txtIter_next_inv (env : Env) (cfg : TxtCfg) (s s1 : Core) (info : BatchInfo)
    (h : txtIter env cfg s = .next s1 info) (hinv : TxtInv cfg s) :
    TxtInv cfg s1 ∧ CoreStep s s1 := by
  obtain ⟨hlt, hclear, hcase⟩ := txtIter_next_shape env cfg s s1 info h
  obtain ⟨hi1, hi2⟩ := hinv
  have hoffle := collectTxt_le env cfg.totalSize cfg.chunkSize cfg.batchSize s.processedItems
  have hofflt := collectTxt_lt env cfg.totalSize cfg.chunkSize cfg.batchSize
    s.processedItems (by omega)
  rcases hcase with ⟨hemp, hinfo, hs1⟩ | ⟨acc, t, full, hne, hcons, hrest⟩
  · subst hs1
    refine ⟨⟨hofflt, hi2⟩, ⟨[], by simp⟩, hoffle, le_refl _⟩
  · rcases hrest with ⟨hi, hinfo, hs1⟩ | ⟨hi, hinfo, hs1⟩
    · subst hs1
      exact ⟨⟨hi1, hi2⟩, ⟨[], by simp⟩, le_refl _, le_refl _⟩
    · subst hs1
      have hts1 : 1 ≤ cfg.totalSize := by omega
      have hbytes : min (collectTxt env cfg.totalSize cfg.chunkSize s.processedItems
          cfg.batchSize).2 cfg.totalSize * cfg.totalBytes / cfg.totalSize ≤
          cfg.totalBytes := by
        calc min (collectTxt env cfg.totalSize cfg.chunkSize s.processedItems
            cfg.batchSize).2 cfg.totalSize * cfg.totalBytes / cfg.totalSize ≤
            cfg.totalSize * cfg.totalBytes / cfg.totalSize :=
              Nat.div_le_div_right (Nat.mul_le_mul_right _ (Nat.min_le_right _ _))
          _ = cfg.totalBytes := Nat.mul_div_cancel_left _ (by omega)
      refine ⟨⟨hofflt, hbytes⟩, ⟨[acc ++ "\n"], rfl⟩, hoffle, by dsimp only []; omega⟩

/-- The PDF loop preserves the invariant and evolves the core monotonically,
from any starting state and for any outcome. -/
theorem pdfLoop_inv (env : Env) (cfg : PdfCfg) :
    ∀ (fuel : Nat) (s : PdfSt) (out : Outcome) (s1 : PdfSt),
      pdfLoop env cfg fuel s = (out, s1) → PdfInv cfg s →
      PdfInv cfg s1 ∧ CoreStep s.core s1.core := by
  intro fuel
  induction fuel with
  | zero =>
      intro s out s1 h hinv
      simp only [pdfLoop] at h
      injection h with h1 h2
      subst h2
      exact ⟨hinv, CoreStep_refl _⟩
  | succ fuel ih =>
      intro s out s1 h hinv
      simp only [pdfLoop] at h
      cases hit : pdfIter env cfg s with
      | halt o s2 =>
          rw [hit] at h
          dsimp only [] at h
          injection h with h1 h2
          subst h2
          obtain ⟨e1, e2, e3, e4, e5, _, _⟩ := pdfIter_halt_shape env cfg s s2 o hit
          obtain ⟨hp1, hp2, hp3, hp4, hp5⟩ := hinv
          refine ⟨⟨?_, ?_, ?_, hp4, ?_⟩, ⟨[], by rw [e1]; simp⟩, ?_, ?_⟩
          · rw [e2, e5]; exact hp1
          · rw [e2]; exact hp2
          · rw [e4]; exact hp3
          · rw [e2, e5]; exact hp5
          · rw [e2]
          · rw [e3]
      | next s2 info =>
          rw [hit] at h
          dsimp only [] at h
          have hstep := pdfIter_next_inv env cfg s s2 info hit hinv
          have hres := ih s2 out s1 h hstep.1
          exact ⟨hres.1, CoreStep_trans hstep.2 hres.2⟩

/-- The text loop preserves the invariant and evolves the core
monotonically, from any starting state and for any outcome. -/
theorem txtLoop_inv (env : Env) (cfg : TxtCfg) :
    ∀ (fuel : Nat) (s : Core) (out : Outcome) (s1 : Core),
      txtLoop env cfg fuel s = (out, s1) → TxtInv cfg s →
      TxtInv cfg s1 ∧ CoreStep s s1 := by
  intro fuel
  induction fuel with
  | zero =>
      intro s out s1 h hinv
      simp only [txtLoop] at h
      injection h with h1 h2
      subst h2
      exact ⟨hinv, CoreStep_refl _⟩
  | succ fuel ih =>
      intro s out s1 h hinv
      simp only [txtLoop] at h
      cases hit : txtIter env cfg s with
      | halt o s2 =>
          rw [hit] at h
          dsimp only [] at h
          injection h with h1 h2
          subst h2
          obtain ⟨e1, e2, e3, e4, _, _⟩ := txtIter_halt_shape env cfg s s2 o hit
          obtain ⟨hi1, hi2⟩ := hinv
          refine ⟨⟨?_, ?_⟩, ⟨[], by rw [e1]; simp⟩, ?_, ?_⟩
          · rw [e2]; exact hi1
          · rw [e4]; exact hi2
          · rw [e2]
          · rw [e3]
      | next s2 info =>
          rw [hit] at h
          dsimp only [] at h
          have hstep := txtIter_next_inv env cfg s s2 info hit hinv
          have hres := ih s2 out s1 h hstep.1
          exact ⟨hres.1, CoreStep_trans hstep.2 hres.2⟩

/-- A PDF run that ends with an extraction or dispatch error leaves the
state so that a re-entry recomputes exactly the failed range: the recorded
failing range is `resumeRange` of the final (last committed) cursor. -/
theorem pdfLoop_failed (env : Env) (cfg : PdfCfg) :
    ∀ (fuel : Nat) (s : PdfSt) (e : String) (r : Nat × Nat) (s1 : PdfSt),
      pdfLoop env cfg fuel s = (.failed e r, s1) → PdfInv cfg s →
      s1.currentPage = max cfg.startPage (s1.core.processedItems + 1) ∧
      r = resumeRange cfg s1.core.processedItems ∧
      r.1 ≤ cfg.endPage := by
  intro fuel
  induction fuel with
  | zero =>
      intro s e r s1 h hinv
      simp only [pdfLoop] at h
      injection h with h1 h2
      injection h1
  | succ fuel ih =>
      intro s e r s1 h hinv
      simp only [pdfLoop] at h
      cases hit : pdfIter env cfg s with
      | halt o s2 =>
          rw [hit] at h
          dsimp only [] at h
          injection h with h1 h2
          subst h2
          obtain ⟨e1, e2, e3, e4, e5, _, hfail⟩ := pdfIter_halt_shape env cfg s s2 o hit
          obtain ⟨hr, hcp⟩ := hfail e r h1
          obtain ⟨hp1, hp2, hp3, hp4, hp5⟩ := hinv
          have hcur : s2.currentPage = max cfg.startPage (s2.core.processedItems + 1) := by
            rw [e2, e5, hp5]
          refine ⟨hcur, ?_, ?_⟩
          · rw [hr]
            unfold resumeRange
            rw [e2, ← hp5]
          · rw [hr]
            exact hcp
      | next s2 info =>
          rw [hit] at h
          dsimp only [] at h
          exact ih s2 e r s1 h (pdfIter_next_inv env cfg s s2 info hit hinv).1

/-- A text run that ends with a dispatch error records exactly the byte
range that a re-entry recomputes from the final cursor. -/
theorem txtLoop_failed (env : Env) (cfg : TxtCfg) :
    ∀ (fuel : Nat) (s : Core) (e : String) (r : Nat × Nat) (s1 : Core),
      txtLoop env cfg fuel s = (.failed e r, s1) →
      r = txtResumeRange env cfg s1.processedItems := by
  intro fuel
  induction fuel with
  | zero =>
      intro s e r s1 h
      simp only [txtLoop] at h
      injection h with h1 h2
      injection h1
  | succ fuel ih =>
      intro s e r s1 h
      simp only [txtLoop] at h
      cases hit : txtIter env cfg s with
      | halt o s2 =>
          rw [hit] at h
          dsimp only [] at h
          injection h with h1 h2
          subst h2
          obtain ⟨e1, e2, e3, e4, _, hfail⟩ := txtIter_halt_shape env cfg s s2 o hit
          have hr := hfail e r h1
          rw [hr]
          unfold txtResumeRange
          rw [e2]
      | next s2 info =>
          rw [hit] at h
          dsimp only [] at h
          exact ih s2 e r s1 h

end UrduRoman

namespace UrduRoman

/-! The claims. -/

/-- C9: only one processing loop can be active at a time — a start request
(`processFile`) made while a run is already active hits the entry guard
`if (!state.file || !geminiRef.current || isRunningRef.current) return;`
(App.tsx 827) and is a no-op: it changes no state and starts no second
loop. -/
theorem c9_start_noop (env : Env) (fuel : Nat) (app : AppState)
    (h : app.isRunning = true) : processFile env fuel app = app := by
  unfold processFile
  cases hf : app.file with
  | none => rfl
  | some f => simp [h]

/-- Witness for C9 at a concrete running state. -/
theorem c9_start_noop_witness : processFile env0 5 app0 = app0 :=
  c9_start_noop env0 5 app0 rfl

/-- C10: every fragment yielded by `GeminiService.convertStream` is a
non-empty string — response chunks whose text is empty or absent are
filtered out by `if (text) yield text` and never reach the consumer. -/
theorem c10_frags_nonempty (chunks : List (Option String)) (f : String)
    (h : f ∈ convertStreamFrags chunks) : f ≠ "" := by
  unfold convertStreamFrags at h
  rw [List.mem_filterMap] at h
  obtain ⟨c, _, hc⟩ := h
  cases c with
  | none => cases hc
  | some t =>
      by_cases ht : t = ""
      · simp [ht] at hc
      · simp only [ht, if_false] at hc
        cases hc
        exact ht

/-- Witness for C10 on a concrete chunk list with an empty and an absent
text. -/
theorem c10_frags_nonempty_witness : ("Roman" : String) ≠ "" :=
  c10_frags_nonempty [some "Roman", some "", none] "Roman" (by decide)

/-- C8 counterexample: at completion fraction 0 the code stores the number 0
(`progress > 0 ? elapsed / progress - elapsed : 0`) as the remaining-time
estimate; the field is a present number, not null/absent as claimed. -/
theorem c8_eta_zero_not_null :
    (updateProgress 0 5 "o" "c" stats0).estimatedTimeRemaining = some 0 ∧
    (updateProgress 0 5 "o" "c" stats0).estimatedTimeRemaining ≠ none := by
  constructor
  · simp [updateProgress]
  · simp [updateProgress]

/-- C8 (amended): for every commit, the estimated time remaining equals
`elapsed / fraction - elapsed` when the fraction is strictly positive and is
the number 0 (not null) when the fraction is zero; the processed byte count
equals `floor(fraction * totalBytes)`, and the natural-division byte count
stored by the loop models is that same floor. -/
theorem c8_eta_formula (progress elapsed : ℚ) (o c : String) (st : Stats) :
    (0 < progress →
      (updateProgress progress elapsed o c st).estimatedTimeRemaining =
        some (elapsed / progress - elapsed)) ∧
    (progress = 0 →
      (updateProgress progress elapsed o c st).estimatedTimeRemaining = some 0) ∧
    (updateProgress progress elapsed o c st).processedBytes =
      Int.floor (progress * st.totalBytes) ∧
    (∀ np endP tb : Nat,
      ((np * tb / endP : Nat) : ℤ) = Int.floor ((np : ℚ) / (endP : ℚ) * (tb : ℚ))) := by
  refine ⟨?_, ?_, rfl, ?_⟩
  · intro h; simp [updateProgress, h]
  · intro h; subst h; simp [updateProgress]
  · intro np endP tb; exact (floorBytes_eq np endP tb).symm

/-- C2: for every total unit count and every batch size at least 1, the
batching loop's ranges, iterated from cursor 0, partition `[0, totalUnits)`
into consecutive batches covering every index exactly once in increasing
order, each of length at most the batch size and never empty before the
cursor reaches the total; the range length is computed exactly as the
source's `Math.min(batchSize, end - currentPage + 1)` (App.tsx 879-880). -/
theorem c2_batcher_partition (T B fuel : Nat) (hB : 1 ≤ B) (hfuel : T ≤ fuel) :
    ((batchRanges T B 0 fuel).map rangeUnits).flatten = List.range T ∧
    (∀ r ∈ batchRanges T B 0 fuel, r.1 < r.2 ∧ r.2 - r.1 ≤ B) ∧
    (∀ cursor, cursor < T → (nextRange cursor T B).1 < (nextRange cursor T B).2) ∧
    (∀ cp, 1 ≤ cp → cp ≤ T →
      min B (T - cp + 1) = (nextRange (cp - 1) T B).2 - (nextRange (cp - 1) T B).1) := by
  have hs := batchRanges_spec T B hB fuel 0 (by omega)
  refine ⟨?_, hs.2, ?_, ?_⟩
  · have h0 : T - 0 = T := by omega
    rw [hs.1, h0, List.range_eq_range']
  · intro cursor hc
    have : 1 ≤ min B (T - cursor) := le_min hB (by omega)
    simp only [nextRange]
    omega
  · intro cp h1 h2
    simp only [nextRange, Nat.add_sub_cancel_left]
    congr 1
    omega

/-- Witness for C2 with 5 units and batch size 2. -/
theorem c2_batcher_partition_witness :
    ((batchRanges 5 2 0 5).map rangeUnits).flatten = List.range 5 ∧
    (∀ r ∈ batchRanges 5 2 0 5, r.1 < r.2 ∧ r.2 - r.1 ≤ 2) ∧
    (∀ cursor, cursor < 5 → (nextRange cursor 5 2).1 < (nextRange cursor 5 2).2) ∧
    (∀ cp, 1 ≤ cp → cp ≤ 5 →
      min 2 (5 - cp + 1) = (nextRange (cp - 1) 5 2).2 - (nextRange (cp - 1) 5 2).1) :=
  c2_batcher_partition 5 2 5 (by decide) (by decide)

/-- C4: deserializing the serialized snapshot restores exactly the cursor,
the accumulated output list, the total unit count and the OCR flag: loading
the blob of `downloadMetadata` stores the same values the export read
(`handleMetadataUpload`, App.tsx 726-754 against 756-775). -/
theorem c4_snapshot_roundtrip (m : MetaS) (s : ImportState) :
    (handleMetadataUpload (some (downloadMetadata m)) s).processedItems =
      .jnum m.lastProcessedIndex ∧
    (handleMetadataUpload (some (downloadMetadata m)) s).finalChunks =
      .jarr (m.accumulatedContent.map .jstr) ∧
    (handleMetadataUpload (some (downloadMetadata m)) s).totalItems = .jnum m.totalItems ∧
    (handleMetadataUpload (some (downloadMetadata m)) s).useOCR = .jbool m.useOCR := by
  cases hrs : m.rangeStart with
  | none =>
      cases hre : m.rangeEnd with
      | none =>
          simp [handleMetadataUpload, downloadMetadata, getField, lookupField, hrs, hre]
      | some b =>
          simp [handleMetadataUpload, downloadMetadata, getField, lookupField, hrs, hre]
  | some a =>
      cases hre : m.rangeEnd with
      | none =>
          simp [handleMetadataUpload, downloadMetadata, getField, lookupField, hrs, hre]
      | some b =>
          simp [handleMetadataUpload, downloadMetadata, getField, lookupField, hrs, hre]

/-- C5 counterexample: the well-formed JSON value `42` is not a valid
snapshot, yet importing it surfaces no error (the error field keeps its
prior value `none`) and mutates live state, setting the cursor field to
JavaScript `undefined`: the import applies fields without any shape
validation. -/
theorem c5_malformed_applied_counterexample :
    (handleMetadataUpload (some (Jv.jnum 42)) importSt0).errMsg = none ∧
    (handleMetadataUpload (some (Jv.jnum 42)) importSt0).processedItems = Jv.jabsent ∧
    importSt0.processedItems = Jv.jnum 7 ∧
    Jv.jabsent ≠ Jv.jnum 7 :=
  ⟨rfl, rfl, rfl, fun h => Jv.noConfusion h⟩

/-- C5 (amended): import parses the blob inside try/catch: input that fails
JSON parsing, or whose parse result is `null` (the first property access
throws), surfaces the distinguishable bad-metadata error with every live
field unchanged; but no shape validation is performed — any other
well-formed JSON value is applied directly, overwriting accumulated output,
cursor, total count and OCR flag with its (possibly undefined) fields. -/
theorem c5_import_error_handling (s : ImportState) (fs : List (String × Jv)) :
    handleMetadataUpload none s = { s with errMsg := some "Failed to parse metadata file." } ∧
    handleMetadataUpload (some Jv.jnull) s =
      { s with errMsg := some "Failed to parse metadata file." } ∧
    handleMetadataUpload (some (Jv.jobj fs)) s =
      { s with finalChunks := lookupField fs "accumulatedContent",
               processedItems := lookupField fs "lastProcessedIndex",
               totalItems := lookupField fs "totalItems",
               useOCR := lookupField fs "useOCR",
               rangeStart := if truthy (lookupField fs "rangeStart") then
                   jvToString (lookupField fs "rangeStart")
                 else s.rangeStart,
               rangeEnd := if truthy (lookupField fs "rangeEnd") then
                   jvToString (lookupField fs "rangeEnd")
                 else s.rangeEnd,
               resumeData := some (Jv.jobj fs),
               status := .paused } :=
  ⟨rfl, rfl, rfl⟩

/-- Witness for C8's amended theorem at fraction 1/2, elapsed 6. -/
theorem c8_eta_formula_witness :
    (updateProgress (1 / 2) 6 "o" "c" stats0).estimatedTimeRemaining = some 6 ∧
    (updateProgress 0 6 "o" "c" stats0).estimatedTimeRemaining = some 0 ∧
    (updateProgress (1 / 2) 6 "o" "c" stats0).processedBytes = 50 := by
  refine ⟨?_, (c8_eta_formula 0 6 "o" "c" stats0).2.1 rfl, ?_⟩
  · rw [(c8_eta_formula (1 / 2) 6 "o" "c" stats0).1 (by norm_num)]
    norm_num
  · rw [(c8_eta_formula (1 / 2) 6 "o" "c" stats0).2.2.1]
    have : ((1 : ℚ) / 2 * stats0.totalBytes) = 50 := by
      simp [stats0]
      norm_num
    rw [this]
    simp

/-- C1: with the sticky run-scoped flags, a batch's result is appended to
the accumulated output only when its fragment stream was drained to a clean
close with neither pause nor abort fired (the commit guard at App.tsx 911,
959, 859); when pause or abort interrupts a dispatched batch, the in-flight
partial text is discarded and the cursor is not advanced past the last
committed unit.  Stated for the PDF loop, the text loop and the
single-image branch. -/
theorem c1_commit_discipline (env : Env) (hm : FlagsMono env) :
    (∀ cfg s s1 info, pdfIter env cfg s = .next s1 info →
      (info.committed = false → s1.core.finalChunks = s.core.finalChunks) ∧
      (info.dispatched = true → info.committed = false →
        s1.core.processedItems = s.core.processedItems ∧
        s1.currentPage = s.currentPage) ∧
      (info.committed = true →
        info.full = true ∧ info.clearAtCommit = true ∧
        ∃ res, s1.core.finalChunks = s.core.finalChunks ++ [res ++ "\n\n"])) ∧
    (∀ cfg s s1 info, txtIter env cfg s = .next s1 info →
      (info.committed = false → s1.finalChunks = s.finalChunks) ∧
      (info.dispatched = true → info.committed = false →
        s1.processedItems = s.processedItems) ∧
      (info.committed = true →
        info.full = true ∧ info.clearAtCommit = true ∧
        ∃ res, s1.finalChunks = s.finalChunks ++ [res ++ "\n"])) ∧
    (∀ mime tb s out c info, imageRun env mime tb s = (out, c, info) →
      (info.committed = false →
        c.finalChunks = s.finalChunks ∧ c.processedItems = s.processedItems) ∧
      (info.committed = true → info.full = true ∧ ∃ res, c.finalChunks = [res])) := by
  refine ⟨?_, ?_, ?_⟩
  · intro cfg s s1 info h
    obtain ⟨hle, hclear, hcase⟩ := pdfIter_next_shape env cfg s s1 info h
    rcases hcase with ⟨hcol, hinfo, hs1⟩ | ⟨inputs, acc, t, full, hcol, hne, hcons, hrest⟩
    · subst hinfo; subst hs1
      refine ⟨fun _ => rfl, fun hd => ?_, fun hc => ?_⟩
      · cases hd
      · cases hc
    · rcases hrest with ⟨hi, hinfo, hs1⟩ | ⟨hi, hinfo, hs1⟩
      · subst hinfo; subst hs1
        refine ⟨fun _ => rfl, fun _ _ => ⟨rfl, rfl⟩, fun hc => ?_⟩
        · cases hc
      · subst hinfo; subst hs1
        refine ⟨fun hc => ?_, fun _ hc => ?_, fun _ => ?_⟩
        · cases hc
        · cases hc
        · exact ⟨consume_full_of_clear env hm _ _ _ _ _ _ _ hcons hi, rfl, acc, rfl⟩
  · intro cfg s s1 info h
    obtain ⟨hlt, hclear, hcase⟩ := txtIter_next_shape env cfg s s1 info h
    rcases hcase with ⟨hemp, hinfo, hs1⟩ | ⟨acc, t, full, hne, hcons, hrest⟩
    · subst hinfo; subst hs1
      refine ⟨fun _ => rfl, fun hd => ?_, fun hc => ?_⟩
      · cases hd
      · cases hc
    · rcases hrest with ⟨hi, hinfo, hs1⟩ | ⟨hi, hinfo, hs1⟩
      · subst hinfo; subst hs1
        refine ⟨fun _ => rfl, fun _ _ => rfl, fun hc => ?_⟩
        · cases hc
      · subst hinfo; subst hs1
        refine ⟨fun hc => ?_, fun _ hc => ?_, fun _ => ?_⟩
        · cases hc
        · cases hc
        · exact ⟨consume_full_of_clear env hm _ _ _ _ _ _ _ hcons hi, rfl, acc, rfl⟩
  · intro mime tb s out c info h
    rcases imageRun_shape env mime tb s out c info h with
      ⟨e, acc, t, hcons, hout, hinfo, hc⟩ | ⟨acc, t, full, hcons, hrest⟩
    · subst hinfo; subst hc
      exact ⟨fun _ => ⟨rfl, rfl⟩, fun hc => by cases hc⟩
    · rcases hrest with ⟨hi, hout, hinfo, hc⟩ | ⟨hi, hout, hinfo, hc⟩
      · subst hinfo; subst hc
        exact ⟨fun _ => ⟨rfl, rfl⟩, fun hc => by cases hc⟩
      · subst hinfo; subst hc
        refine ⟨fun hc => ?_, fun _ => ?_⟩
        · cases hc
        · exact ⟨consume_full_of_clear env hm _ _ _ _ _ _ _ hcons hi, acc, rfl⟩

/-- Witness for C1 at a quiet environment, checking a concrete committed
batch of the PDF loop. -/
theorem c1_commit_discipline_witness :
    FlagsMono env0 ∧
    pdfIter env0 cfg3 pdfSt0 = PdfIterOut.next pdfNextSt ⟨true, true, true, true⟩ ∧
    ((⟨true, true, true, true⟩ : BatchInfo).full = true ∧
     (⟨true, true, true, true⟩ : BatchInfo).clearAtCommit = true ∧
     ∃ res, pdfNextSt.core.finalChunks = pdfSt0.core.finalChunks ++ [res ++ "\n\n"]) := by
  have hm : FlagsMono env0 := by
    intro a b hab hx
    simp [intr, env0] at hx
  have hit : pdfIter env0 cfg3 pdfSt0 = PdfIterOut.next pdfNextSt ⟨true, true, true, true⟩ := by
    decide
  exact ⟨hm, hit,
    ((c1_commit_discipline env0 hm).1 cfg3 pdfSt0 pdfNextSt ⟨true, true, true, true⟩ hit).2.2
      rfl⟩

/-- C3: when extraction or dispatch throws, the failing iteration leaves the
cursor and the accumulated output at their last committed values, the
wrapper surfaces the `error` status with the message, and a subsequent
re-entry into processing recomputes exactly the failed unit range
(`resumeRange` for pages, `txtResumeRange` for byte offsets), so the retry
redispatches the identical batch and then proceeds. -/
theorem c3_error_retry (env : Env) :
    (∀ cfg s s1 out, pdfIter env cfg s = .halt out s1 →
      s1.core.finalChunks = s.core.finalChunks ∧
      s1.core.processedItems = s.core.processedItems) ∧
    (∀ cfg s s1 out, txtIter env cfg s = .halt out s1 →
      s1.finalChunks = s.finalChunks ∧ s1.processedItems = s.processedItems) ∧
    (∀ cfg fuel s e r s1, pdfLoop env cfg fuel s = (.failed e r, s1) → PdfInv cfg s →
      s1.currentPage = max cfg.startPage (s1.core.processedItems + 1) ∧
      r = resumeRange cfg s1.core.processedItems ∧
      r.1 ≤ cfg.endPage) ∧
    (∀ cfg fuel s e r s1, txtLoop env cfg fuel s = (.failed e r, s1) →
      r = txtResumeRange env cfg s1.processedItems) ∧
    (∀ app c ti e r,
      (finishRun env app (.failed e r) c ti).status = .error ∧
      (finishRun env app (.failed e r) c ti).errMsg =
        some ("Stream Terminated: " ++ e) ∧
      (finishRun env app (.failed e r) c ti).core = c) := by
  refine ⟨?_, ?_, ?_, ?_, ?_⟩
  · intro cfg s s1 out h
    have hh := pdfIter_halt_shape env cfg s s1 out h
    exact ⟨hh.1, hh.2.1⟩
  · intro cfg s s1 out h
    have hh := txtIter_halt_shape env cfg s s1 out h
    exact ⟨hh.1, hh.2.1⟩
  · intro cfg fuel s e r s1 h hinv
    exact pdfLoop_failed env cfg fuel s e r s1 h hinv
  · intro cfg fuel s e r s1 h
    exact txtLoop_failed env cfg fuel s e r s1 h
  · intro app c ti e r
    exact ⟨rfl, rfl, rfl⟩

/-- Witness for C3: scenario C — a 3-page run with batch size 1 whose second
dispatch fails with a quota error ends with cursor 1 and only batch 1
committed; the recorded failing range is exactly what a re-entry recomputes,
and the retry redispatches page 2's identical inputs, then proceeds to page
3 and completes. -/
theorem c3_error_retry_witness :
    pdfLoop envErr2 cfg3 10 pdfSt0 = (Outcome.failed "quota" (2, 2), pdfErrSt) ∧
    PdfInv cfg3 pdfSt0 ∧
    pdfErrSt.core.finalChunks = ["B1\n\n"] ∧
    pdfErrSt.core.processedItems = 1 ∧
    pdfErrSt.currentPage = max cfg3.startPage (pdfErrSt.core.processedItems + 1) ∧
    (2, 2) = resumeRange cfg3 pdfErrSt.core.processedItems ∧
    (pdfLoop envErr2 cfg3 10 pdfRetrySt).1 = Outcome.completedRun ∧
    (pdfLoop envErr2 cfg3 10 pdfRetrySt).2.core.finalChunks =
      ["B1\n\n", "B2\n\n", "B3\n\n"] ∧
    (pdfLoop envErr2 cfg3 10 pdfRetrySt).2.core.processedItems = 3 ∧
    (pdfLoop envErr2 cfg3 10 pdfRetrySt).2.core.dispatches =
      [[.text "p1"], [.text "p2"], [.text "p2"], [.text "p3"]] := by
  have h : pdfLoop envErr2 cfg3 10 pdfSt0 = (Outcome.failed "quota" (2, 2), pdfErrSt) := by
    decide
  have hinv : PdfInv cfg3 pdfSt0 := ⟨by decide, by decide, by decide, by decide, by decide⟩
  have hres := (c3_error_retry envErr2).2.2.1 cfg3 10 pdfSt0 "quota" (2, 2) pdfErrSt h hinv
  exact ⟨h, hinv, by decide, by decide, hres.1, hres.2.1, by decide, by decide, by decide,
    by decide⟩

/-- C6: a work unit whose extracted text is blank after trimming is never
dispatched — the batch inputs are exactly the non-blank units, in order —
and never contributes to the accumulated output; the cursor still advances
past every unit of the batch exactly once (by one page, or one chunk of the
byte cursor), including when the whole batch is blank and nothing is
dispatched at all. -/
theorem c6_blank_skip (env : Env) :
    (∀ n firstPage l, collectPdf env false firstPage n = .ok l →
      l = (pageIdxs firstPage n).filterMap (fun i => keepText (env.pageText i))) ∧
    (∀ ts cs n off, collectTxt env ts cs off n =
      ((chunkOffsets ts cs off n).filterMap (keepChunk env),
       off + cs * (chunkOffsets ts cs off n).length)) ∧
    (∀ cfg s s1 info, pdfIter env cfg s = .next s1 info → info.dispatched = false →
      s1.core.dispatches = s.core.dispatches ∧
      s1.core.finalChunks = s.core.finalChunks ∧
      s1.core.processedItems = s.currentPage +
        min cfg.batchSize (cfg.endPage - s.currentPage + 1) - 1 ∧
      s1.currentPage = s.currentPage +
        min cfg.batchSize (cfg.endPage - s.currentPage + 1)) ∧
    (∀ cfg s s1 info, pdfIter env cfg s = .next s1 info →
      s.currentPage = s.core.processedItems + 1 →
      info.committed = true ∨ info.dispatched = false →
      s1.core.processedItems = s.core.processedItems +
        min cfg.batchSize (cfg.endPage - s.currentPage + 1)) ∧
    (∀ cfg s s1 info, txtIter env cfg s = .next s1 info → info.dispatched = false →
      s1.dispatches = s.dispatches ∧
      s1.finalChunks = s.finalChunks ∧
      s1.processedItems = s.processedItems + cfg.chunkSize *
        (chunkOffsets cfg.totalSize cfg.chunkSize s.processedItems cfg.batchSize).length) := by
  refine ⟨collectPdf_ok env, fun ts cs => collectTxt_spec env ts cs, ?_, ?_, ?_⟩
  · intro cfg s s1 info h hd
    obtain ⟨hle, hclear, hcase⟩ := pdfIter_next_shape env cfg s s1 info h
    rcases hcase with ⟨hcol, hinfo, hs1⟩ | ⟨inputs, acc, t, full, hcol, hne, hcons, hrest⟩
    · subst hs1
      exact ⟨rfl, rfl, rfl, rfl⟩
    · rcases hrest with ⟨hi, hinfo, hs1⟩ | ⟨hi, hinfo, hs1⟩ <;> subst hinfo <;> cases hd
  · intro cfg s s1 info h hcp hcase0
    obtain ⟨hle, hclear, hcase⟩ := pdfIter_next_shape env cfg s s1 info h
    have hbs : min cfg.batchSize (cfg.endPage - s.currentPage + 1) ≤
        cfg.endPage - s.currentPage + 1 := Nat.min_le_right _ _
    rcases hcase with ⟨hcol, hinfo, hs1⟩ | ⟨inputs, acc, t, full, hcol, hne, hcons, hrest⟩
    · subst hs1
      dsimp only []
      omega
    · rcases hrest with ⟨hi, hinfo, hs1⟩ | ⟨hi, hinfo, hs1⟩
      · subst hinfo
        rcases hcase0 with hx | hx <;> cases hx
      · subst hs1
        dsimp only []
        omega
  · intro cfg s s1 info h hd
    obtain ⟨hlt, hclear, hcase⟩ := txtIter_next_shape env cfg s s1 info h
    rcases hcase with ⟨hemp, hinfo, hs1⟩ | ⟨acc, t, full, hne, hcons, hrest⟩
    · subst hs1
      refine ⟨rfl, rfl, ?_⟩
      dsimp only []
      rw [collectTxt_spec env cfg.totalSize cfg.chunkSize cfg.batchSize s.processedItems]
    · rcases hrest with ⟨hi, hinfo, hs1⟩ | ⟨hi, hinfo, hs1⟩ <;> subst hinfo <;> cases hd

/-- Witness for C6 on an all-blank environment: the two-page batch collects
no inputs, and the blank-batch iteration skips dispatch and advances the
cursor by one page. -/
theorem c6_blank_skip_witness :
    collectPdf envBlank false 1 2 = Except.ok [] ∧
    ([] : List StreamInput) =
      (pageIdxs 1 2).filterMap (fun i => keepText (envBlank.pageText i)) ∧
    pdfIter envBlank cfg3 pdfSt0 =
      PdfIterOut.next ⟨⟨[], 1, 0, 0, [], 1⟩, 2⟩ ⟨false, true, true, false⟩ ∧
    (⟨⟨[], 1, 0, 0, [], 1⟩, 2⟩ : PdfSt).core.dispatches = pdfSt0.core.dispatches ∧
    (⟨⟨[], 1, 0, 0, [], 1⟩, 2⟩ : PdfSt).core.finalChunks = pdfSt0.core.finalChunks ∧
    (⟨⟨[], 1, 0, 0, [], 1⟩, 2⟩ : PdfSt).core.processedItems =
      pdfSt0.core.processedItems + min cfg3.batchSize (cfg3.endPage - pdfSt0.currentPage + 1) := by
  have hcol : collectPdf envBlank false 1 2 = Except.ok [] := by rfl
  have hit : pdfIter envBlank cfg3 pdfSt0 =
      PdfIterOut.next ⟨⟨[], 1, 0, 0, [], 1⟩, 2⟩ ⟨false, true, true, false⟩ := by decide
  have hchar := (c6_blank_skip envBlank).1 2 1 [] hcol
  have hadv := (c6_blank_skip envBlank).2.2.2.1 cfg3 pdfSt0 ⟨⟨[], 1, 0, 0, [], 1⟩, 2⟩
    ⟨false, true, true, false⟩ hit rfl (Or.inr rfl)
  have hskip := (c6_blank_skip envBlank).2.2.1 cfg3 pdfSt0 ⟨⟨[], 1, 0, 0, [], 1⟩, 2⟩
    ⟨false, true, true, false⟩ hit rfl
  exact ⟨hcol, hchar, hit, hskip.1, hskip.2.1, hadv⟩

/-- C7 counterexample: a quiet full run over a 100-byte text file ends with
`processedItems = 32768` (the chunk-aligned offset) while `totalItems = 100`
— the unit cursor exceeds the total, contradicting the claim as stated. -/
theorem c7_overshoot_counterexample :
    (processFile env0 3 app1).core.processedItems = 32768 ∧
    (processFile env0 3 app1).totalItems = 100 ∧
    ¬((processFile env0 3 app1).core.processedItems ≤ (processFile env0 3 app1).totalItems) := by
  refine ⟨by decide, by decide, ?_⟩
  intro hle
  rw [(by decide : (processFile env0 3 app1).core.processedItems = 32768),
    (by decide : (processFile env0 3 app1).totalItems = 100)] at hle
  omega

/-- C7 (amended): within every run, per iteration and over the whole loop,
the cursor and the accumulated-output length are non-decreasing and the
derived processed-byte count never exceeds the total byte size; the unit
cursor never exceeds the total for paged runs (and stays at most 1 for image
runs started from a matching state), while in plain-text mode the byte
cursor can overshoot the file size by less than one chunk after the final
partial chunk. -/
theorem c7_monotonicity (env : Env) :
    (∀ cfg s s1 info, pdfIter env cfg s = .next s1 info → PdfInv cfg s →
      PdfInv cfg s1 ∧ CoreStep s.core s1.core) ∧
    (∀ cfg fuel s out s1, pdfLoop env cfg fuel s = (out, s1) → PdfInv cfg s →
      PdfInv cfg s1 ∧ CoreStep s.core s1.core) ∧
    (∀ cfg s s1 info, txtIter env cfg s = .next s1 info → TxtInv cfg s →
      TxtInv cfg s1 ∧ CoreStep s s1) ∧
    (∀ cfg fuel s out s1, txtLoop env cfg fuel s = (out, s1) → TxtInv cfg s →
      TxtInv cfg s1 ∧ CoreStep s s1) ∧
    (∀ mime tb s out c info, imageRun env mime tb s = (out, c, info) →
      s.finalChunks.length ≤ 1 → s.processedItems ≤ 1 → s.processedBytes ≤ tb →
      s.finalChunks.length ≤ c.finalChunks.length ∧
      s.processedItems ≤ c.processedItems ∧
      c.processedItems ≤ 1 ∧
      s.chunksProcessed ≤ c.chunksProcessed ∧
      c.processedBytes ≤ tb) := by
  refine ⟨fun cfg s s1 info h hinv => pdfIter_next_inv env cfg s s1 info h hinv,
    fun cfg fuel s out s1 h hinv => pdfLoop_inv env cfg fuel s out s1 h hinv,
    fun cfg s s1 info h hinv => txtIter_next_inv env cfg s s1 info h hinv,
    fun cfg fuel s out s1 h hinv => txtLoop_inv env cfg fuel s out s1 h hinv,
    ?_⟩
  intro mime tb s out c info h h1 h2 h3
  rcases imageRun_shape env mime tb s out c info h with
    ⟨e, acc, t, hcons, hout, hinfo, hc⟩ | ⟨acc, t, full, hcons, hrest⟩
  · subst hc
    exact ⟨le_refl _, le_refl _, h2, le_refl _, h3⟩
  · rcases hrest with ⟨hi, hout, hinfo, hc⟩ | ⟨hi, hout, hinfo, hc⟩
    · subst hc
      exact ⟨le_refl _, le_refl _, h2, le_refl _, h3⟩
    · subst hc
      exact ⟨h1, h2, le_refl _, Nat.le_succ _, le_refl _⟩

/-- Witness for C7 on quiet concrete PDF and text runs. -/
theorem c7_monotonicity_witness :
    PdfInv cfg3 (pdfLoop env0 cfg3 10 pdfSt0).2 ∧
    CoreStep core0 (pdfLoop env0 cfg3 10 pdfSt0).2.core ∧
    TxtInv txtCfg100 (txtLoop env0 txtCfg100 5 core0).2 ∧
    CoreStep core0 (txtLoop env0 txtCfg100 5 core0).2 := by
  have hpdf := (c7_monotonicity env0).2.1 cfg3 10 pdfSt0 (pdfLoop env0 cfg3 10 pdfSt0).1
    (pdfLoop env0 cfg3 10 pdfSt0).2 rfl ⟨by decide, by decide, by decide, by decide, by decide⟩
  have htxt := (c7_monotonicity env0).2.2.2.1 txtCfg100 5 core0 (txtLoop env0 txtCfg100 5 core0).1
    (txtLoop env0 txtCfg100 5 core0).2 rfl ⟨by decide, by decide⟩
  exact ⟨hpdf.1, hpdf.2, htxt.1, htxt.2⟩

end UrduRoman
